import Mathlib

/-!
Verification development for the provider-agnostic object-storage client
(`objcli`) of the tools-common repository.  The backends are modelled as
in-memory stores; each client operation is translated from the Go source
into an explicit state-passing Lean function.  Byte contents are lists of
naturals, keys are strings, fallible operations return `Except`-style
results, and fresh identifiers (UUIDs) are supplied by an injective
name source passed explicitly.
-/

set_option linter.unusedVariables false

/-- A modelled object store for one bucket: an association list from object
keys to their contents (byte sequences as lists of naturals). -/
abbrev Store := List (String × List Nat)

/-- Look up the content stored at a key. -/
def storeLookup : Store → String → Option (List Nat)
  | [], _ => none
  | e :: s, k => if e.1 = k then some e.2 else storeLookup s k

/-- Remove every entry for the given key (object deletion). -/
def storeErase : Store → String → Store
  | [], _ => []
  | e :: s, k => if e.1 = k then storeErase s k else e :: storeErase s k

/-- Overwrite the content at a key (unconditional object write). -/
def storeInsert (s : Store) (k : String) (v : List Nat) : Store :=
  (k, v) :: storeErase s k

/-- Delete a batch of keys, one after the other. -/
def storeEraseAll (s : Store) (ks : List String) : Store :=
  ks.foldl storeErase s

/-- Look up several keys at once, failing if any one of them is absent. -/
def storeLookupAll (s : Store) : List String → Option (List (List Nat))
  | [] => some []
  | k :: ks =>
    match storeLookup s k, storeLookupAll s ks with
    | some c, some cs => some (c :: cs)
    | _, _ => none

theorem storeLookup_erase (s : Store) (k q : String) :
    storeLookup (storeErase s k) q = if q = k then none else storeLookup s q := by
  induction s with
  | nil => simp [storeErase, storeLookup]
  | cons e s ih =>
    simp only [storeErase]
    by_cases h1 : e.1 = k
    · rw [if_pos h1, ih]
      by_cases h2 : q = k
      · simp [h2]
      · simp only [if_neg h2, storeLookup]
        rw [if_neg (by rw [h1]; exact fun hk => h2 hk.symm)]
    · rw [if_neg h1]
      simp only [storeLookup]
      by_cases h2 : e.1 = q
      · rw [if_pos h2, if_pos h2, if_neg (fun hq => h1 (h2.trans hq))]
      · rw [if_neg h2, if_neg h2, ih]

theorem storeLookup_insert (s : Store) (k : String) (v : List Nat) (q : String) :
    storeLookup (storeInsert s k v) q = if q = k then some v else storeLookup s q := by
  by_cases h : q = k <;> by_cases h2 : k = q <;>
    simp_all [storeInsert, storeLookup, storeLookup_erase]

theorem storeLookup_eraseAll (s : Store) (ks : List String) (q : String) :
    storeLookup (storeEraseAll s ks) q = if q ∈ ks then none else storeLookup s q := by
  induction ks generalizing s with
  | nil => simp [storeEraseAll]
  | cons k ks ih =>
    have hstep : storeEraseAll s (k :: ks) = storeEraseAll (storeErase s k) ks := rfl
    rw [hstep, ih (storeErase s k), storeLookup_erase]
    by_cases h : q = k
    · simp [h]
    · by_cases h2 : q ∈ ks <;> simp [h, h2]

theorem storeLookupAll_congr (s s' : Store) (ks : List String)
    (h : ∀ k ∈ ks, storeLookup s' k = storeLookup s k) :
    storeLookupAll s' ks = storeLookupAll s ks := by
  induction ks with
  | nil => rfl
  | cons k ks ih =>
    simp only [storeLookupAll]
    rw [h k (by simp), ih (fun x hx => h x (by simp [hx]))]

theorem storeLookupAll_append (s : Store) (a b : List String) :
    storeLookupAll s (a ++ b) =
      match storeLookupAll s a, storeLookupAll s b with
      | some ca, some cb => some (ca ++ cb)
      | _, _ => none := by
  induction a with
  | nil =>
    simp only [List.nil_append, storeLookupAll]
    cases storeLookupAll s b <;> rfl
  | cons k a ih =>
    have hcons : storeLookupAll s ((k :: a) ++ b) =
        match storeLookup s k, storeLookupAll s (a ++ b) with
        | some c, some cs => some (c :: cs)
        | _, _ => none := rfl
    have hcons' : storeLookupAll s (k :: a) =
        match storeLookup s k, storeLookupAll s a with
        | some c, some cs => some (c :: cs)
        | _, _ => none := rfl
    rw [hcons, hcons', ih]
    cases storeLookup s k <;> cases storeLookupAll s a <;> cases storeLookupAll s b <;> rfl

/-- Canonical error taxonomy produced by normalizing provider-native errors
(objerr package plus the wrapping with phase labels done by the clients). -/
inductive OErr where
  | notFound : OErr
  | unsupportedOperation : OErr
  | invalidByteRange : OErr
  | includeExcludeMutuallyExclusive : OErr
  | provider : String → OErr
  | wrapped : String → OErr → OErr
deriving DecidableEq

/-- Whether an error is (or wraps) the canonical not-found error, as decided
by objerr.IsNotFoundError via errors.As unwrapping. -/
def OErr.isNotFound : OErr → Bool
  | .notFound => true
  | .wrapped _ e => e.isNotFound
  | _ => false

/-- Part metadata from objval.Part: an opaque identifier, an ordering number
and a size in bytes.  (Named ObjPart because Mathlib already declares Part.) -/
structure ObjPart where
  ID : String
  Number : Int
  Size : Int
deriving DecidableEq

/-- Object attribute snapshot from objval.ObjectAttrs (the fields the claims
touch: key and size; ETag and LastModified are not referenced). -/
structure ObjectAttrs where
  Key : String
  Size : Int
deriving DecidableEq

/-- Inclusive byte range from objval.ByteRange.  As in the Go struct both
offsets are plain integers; an End of 0 doubles as "open-ended" exactly as in
the callers (the AWS append path always sets Start 0, End size-1). -/
structure ByteRange where
  Start : Int
  End : Int
deriving DecidableEq

/-- Modelled from the spec: objval.ByteRange.Valid is not under src/.  The
spec states the invariant Start >= 0 and End >= Start when End is present
(absence encoded as 0), violations yield a validation error before any
network call, and a nil range is permitted unless the mode requires one. -/
def byteRangeValid (required : Bool) (br : Option ByteRange) : Option OErr :=
  match br with
  | none => if required then some .invalidByteRange else none
  | some r =>
    if r.Start < 0 ∨ (r.End ≠ 0 ∧ r.End < r.Start) then some .invalidByteRange else none

/-- MaxComposable is the hard limit imposed by Google Storage on the number of
objects which can be composed into one. -/
def MaxComposable : Nat := 32

/-- Modelled from the spec: partKey is not under src/.  It derives the storage
key of an intermediate object from the generated identifier and the object
key, placing it under the upload's key namespace. -/
def partKey (id key : String) : String :=
  String.append (String.append key "-mpu-") id

/-- Result of a GCP state-changing call: the error value together with the
store as left behind by the call (errors do not roll the store back). -/
abbrev GRes := Except (OErr × Store) Store

/-- Client.compose from objgcp: merge the given parts into a single object at
key.  The SDK composer requires at least one source and fails with not-found
if a source object is absent; on success the destination is overwritten with
the concatenation of the sources in the given order. -/
def gcpCompose (s : Store) (key : String) (parts : List String) : GRes :=
  if parts.isEmpty then .error (.provider "storage: at least one source must be specified", s)
  else
    match storeLookupAll s parts with
    | none => .error (.notFound, s)
    | some cs => .ok (storeInsert s key cs.flatten)

/-- Client.cleanup from objgcp: best-effort deletion of the given keys; any
failure is logged and swallowed, so the function returns only the store. -/
def gcpCleanup (s : Store) (keys : List String) : Store :=
  storeEraseAll s keys

/-- Client.complete from objgcp: recursively compose the object in chunks of
MaxComposable.  When more parts remain, the first MaxComposable are composed
into a fresh intermediate key (a generated UUID, supplied by ids), the
intermediate is pushed onto the front of the remainder and the function
recurses; a deferred cleanup removes the intermediate on every exit path. -/
def gcpComplete (ids : Nat → String) (ctr : Nat) (s : Store) (key : String)
    (parts : List String) : GRes :=
  if h : parts.length ≤ MaxComposable then
    gcpCompose s key parts
  else
    let inter := partKey (ids ctr) key
    match gcpCompose s inter (parts.take MaxComposable) with
    | .error (e, s1) => .error (e, gcpCleanup s1 [inter])
    | .ok s1 =>
      match gcpComplete ids (ctr + 1) s1 key (inter :: parts.drop MaxComposable) with
      | .error (e, s2) => .error (e, gcpCleanup s2 [inter])
      | .ok s2 => .ok (gcpCleanup s2 [inter])
termination_by parts.length
decreasing_by
  simp only [List.length_cons, List.length_drop, MaxComposable] at *
  omega

/-- Remove the first occurrence of a key from a list: the effect of
slices.Index followed by slices.Delete in CompleteMultipartUpload. -/
def eraseFirst : List String → String → List String
  | [], _ => []
  | x :: xs, k => if x = k then xs else x :: eraseFirst xs k

/-- Client.CompleteMultipartUpload from objgcp: convert the parts to their
identifiers, recursively compose them into the final key, then best-effort
delete the identifiers, sparing an identifier equal to the final key (the
self-referential append case). -/
def gcpCompleteMultipartUpload (ids : Nat → String) (ctr : Nat) (s : Store)
    (key : String) (parts : List ObjPart) : GRes :=
  let converted := parts.map (·.ID)
  match gcpComplete ids ctr s key converted with
  | .error es => .error es
  | .ok s1 => .ok (gcpCleanup s1 (eraseFirst converted key))

/-- Fuel-indexed variant of Client.complete, identical except that each
recursive call consumes one unit of fuel and exhaustion yields none.  Used to
state that the recursion depth is bounded by the number of parts. -/
def gcpCompleteFuel (ids : Nat → String) : Nat → Nat → Store → String → List String →
    Option GRes
  | 0, _, _, _, _ => none
  | fuel + 1, ctr, s, key, parts =>
    if parts.length ≤ MaxComposable then
      some (gcpCompose s key parts)
    else
      let inter := partKey (ids ctr) key
      match gcpCompose s inter (parts.take MaxComposable) with
      | .error (e, s1) => some (.error (e, gcpCleanup s1 [inter]))
      | .ok s1 =>
        match gcpCompleteFuel ids fuel (ctr + 1) s1 key (inter :: parts.drop MaxComposable) with
        | none => none
        | some (.error (e, s2)) => some (.error (e, gcpCleanup s2 [inter]))
        | some (.ok s2) => some (.ok (gcpCleanup s2 [inter]))

/-- Client.PutObject from objgcp: checksum the body and overwrite the object.
In the in-memory backend semantics the write succeeds and the net effect on
the store is the overwrite. -/
def gcpPutObject (s : Store) (key : String) (data : List Nat) : Store :=
  storeInsert s key data

/-- Client.GetObjectAttrs from objgcp, returning the Go-style pair of a
possibly-nil attributes pointer and a possibly-nil error: absent objects
yield (nil, NotFoundError) via handleError. -/
def gcpGetObjectAttrs (s : Store) (key : String) :
    Option ObjectAttrs × Option OErr :=
  match storeLookup s key with
  | none => (none, some .notFound)
  | some c => (some { Key := key, Size := (c.length : Int) }, none)

/-- Client.UploadPart from objgcp: determine the body length, upload the body
at an intermediate key derived from the upload id and object key and return
the described part. -/
def gcpUploadPart (s : Store) (id key : String) (number : Int) (body : List Nat) :
    ObjPart × Store :=
  let intermediate := partKey id key
  ({ ID := intermediate, Number := number, Size := (body.length : Int) },
    gcpPutObject s intermediate body)

/-- Result of a Go call that can also crash: ok with a value, an error paired
with the store it left behind, or a runtime panic (nil dereference). -/
inductive GoRes (α : Type) where
  | ok : α → GoRes α
  | err : OErr → Store → GoRes α
  | panicked : GoRes α
deriving DecidableEq

/-- Client.AppendToObject from objgcp, with the result of the initial
GetObjectAttrs call passed explicitly as the Go pair (attrs, err).  The
source evaluates objerr.IsNotFoundError(err) || attrs.Size == 0: when err is
neither nil nor a not-found error the short-circuit fails and attrs.Size
dereferences the nil attrs pointer, which is a runtime panic.  Otherwise,
for an absent or empty object the data is stored via PutObject, and for a
non-empty object the existing destination object is completed together with
the freshly uploaded part (part 1 being the destination key itself). -/
def gcpAppendToObjectR (ids : Nat → String) (s : Store) (key : String)
    (data : List Nat) (attrs : Option ObjectAttrs) (e : Option OErr) : GoRes Store :=
  if (match e with | some er => er.isNotFound | none => false) then
    .ok (gcpPutObject s key data)
  else
    match attrs with
    | none => .panicked
    | some a =>
      if a.Size = 0 then
        .ok (gcpPutObject s key data)
      else
        match e with
        | some er => .err (.wrapped "failed to get object attributes" er) s
        | none =>
          let id := ids 0
          let up := gcpUploadPart s id key 2 data
          let intermediate := up.1
          let s1 := up.2
          let part : ObjPart := { ID := key, Number := 1, Size := a.Size }
          match gcpCompleteMultipartUpload (fun n => ids (n + 1)) 0 s1 key
              [part, intermediate] with
          | .ok s2 => .ok s2
          | .error (er, s2) => .err (.wrapped "failed to complete multipart upload" er) s2

/-- Client.AppendToObject from objgcp on the in-memory backend: the attrs
pair is produced by GetObjectAttrs on the store. -/
def gcpAppendToObject (ids : Nat → String) (s : Store) (key : String)
    (data : List Nat) : GoRes Store :=
  gcpAppendToObjectR ids s key data (gcpGetObjectAttrs s key).1 (gcpGetObjectAttrs s key).2

/-- Client.UploadPartCopy from objgcp: validate the byte range in "any range"
mode, fetch the source attributes, reject a range that does not cover the
entire object as unsupported, and otherwise copy the whole source object to a
new intermediate key, returning the described part (the source populates only
ID and Size).  The store is returned alongside so error paths show that no
intermediate object was created. -/
def gcpUploadPartCopy (s : Store) (id dst src : String) (number : Int)
    (br : Option ByteRange) : Except OErr ObjPart × Store :=
  match byteRangeValid false br with
  | some e => (.error e, s)
  | none =>
    match storeLookup s src with
    | none => (.error (.wrapped "failed to get object attributes" .notFound), s)
    | some content =>
      let size : Int := (content.length : Int)
      if (match br with
          | some r => !(decide (r.Start = 0 ∧ r.End = size - 1))
          | none => false) then
        (.error .unsupportedOperation, s)
      else
        let intermediate := partKey id dst
        (.ok { ID := intermediate, Number := 0, Size := size },
          storeInsert s intermediate content)

/-- Modelled from the spec: objcli.ShouldIgnore is not under src/.  The
include and exclude sets are mutually exclusive match-pattern sets (patterns
modelled as match predicates); with an active include filter an object is
skipped unless some pattern matches, with an active exclude filter it is
skipped when some pattern matches.  A nil Go slice is none, a present slice
is some list. -/
def shouldIgnore (name : String) (inc exc : Option (List (String → Bool))) : Bool :=
  (match exc with
    | some ps => ps.any (fun p => p name)
    | none => false) ||
  (match inc with
    | some ps => !(ps.any (fun p => p name))
    | none => false)

/-- One record yielded by the GCP listing iterator: a name, a pseudo-directory
prefix (empty for a plain object) and a size.  The Updated timestamp is not
referenced by any claim and is omitted. -/
structure GRemote where
  Name : String
  Pfx : String
  Size : Int

/-- Client.IterateObjects from objgcp.  The backend listing is the given
record sequence; the result is paired with the number of listing calls issued
(the Objects call counts as one, the guard path issues none).  Records are
filtered through shouldIgnore, directory stubs get zero size, and an error
returned by the callback stops iteration and propagates unwrapped. -/
def gcpIterateObjects (listing : List GRemote)
    (inc exc : Option (List (String → Bool)))
    (fn : ObjectAttrs → Option OErr) : Except OErr Unit × Nat :=
  if inc.isSome && exc.isSome then
    (.error .includeExcludeMutuallyExclusive, 0)
  else
    (go listing, 1)
where
  go : List GRemote → Except OErr Unit
    | [] => .ok ()
    | r :: rs =>
      if shouldIgnore r.Name inc exc then go rs
      else
        let attrs : ObjectAttrs :=
          if r.Pfx = "" then { Key := r.Name, Size := r.Size } else { Key := r.Pfx, Size := 0 }
        match fn attrs with
        | some e => .error e
        | none => go rs

/-- One object record from an AWS listing page. -/
structure S3Object where
  Key : String
  Size : Int

/-- Client.iterateObjects from objaws: iterate one page of objects, skipping
ignored keys, stopping on the first callback error. -/
def awsIterateObjectsPage (objects : List S3Object)
    (inc exc : Option (List (String → Bool)))
    (fn : ObjectAttrs → Option OErr) : Except OErr Unit :=
  match objects with
  | [] => .ok ()
  | o :: os =>
    if shouldIgnore o.Key inc exc then awsIterateObjectsPage os inc exc fn
    else
      match fn { Key := o.Key, Size := o.Size } with
      | some e => .error e
      | none => awsIterateObjectsPage os inc exc fn

/-- Client.IterateObjects from objaws: guard against both filters being
present, then walk the listing pages (the ListObjectsV2Pages call counts as
the single listing call). -/
def awsIterateObjects (pages : List (List S3Object))
    (inc exc : Option (List (String → Bool)))
    (fn : ObjectAttrs → Option OErr) : Except OErr Unit × Nat :=
  if inc.isSome && exc.isSome then
    (.error .includeExcludeMutuallyExclusive, 0)
  else
    (go pages, 1)
where
  go : List (List S3Object) → Except OErr Unit
    | [] => .ok ()
    | p :: ps =>
      match awsIterateObjectsPage p inc exc fn with
      | .error e => .error e
      | .ok () => go ps

/-- One part held in an in-progress AWS multipart session: its caller-assigned
number and its bytes (held server-side). -/
structure SessionPart where
  num : Int
  content : List Nat
deriving DecidableEq

/-- The modelled AWS backend: the bucket's objects plus the server-tracked
multipart sessions (upload id to uploaded parts, in upload order). -/
structure AwsState where
  store : Store
  sessions : List (String × List SessionPart)
deriving DecidableEq

/-- Look up the parts of a session by upload id. -/
def awsSession : List (String × List SessionPart) → String → Option (List SessionPart)
  | [], _ => none
  | e :: ss, id => if e.1 = id then some e.2 else awsSession ss id

/-- Append a part to a session. -/
def awsSessionAdd (ss : List (String × List SessionPart)) (id : String)
    (p : SessionPart) : List (String × List SessionPart) :=
  ss.map (fun e => if e.1 = id then (e.1, e.2 ++ [p]) else e)

/-- Drop a session (upload completed or aborted). -/
def awsSessionDrop : List (String × List SessionPart) → String →
    List (String × List SessionPart)
  | [], _ => []
  | e :: ss, id => if e.1 = id then awsSessionDrop ss id else e :: awsSessionDrop ss id

/-- Client.GetObjectAttrs from objaws: head the object, not-found when the
key is absent. -/
def awsGetObjectAttrs (st : AwsState) (key : String) : Except OErr ObjectAttrs :=
  match storeLookup st.store key with
  | none => .error .notFound
  | some c => .ok { Key := key, Size := (c.length : Int) }

/-- Client.PutObject from objaws: unconditional overwrite. -/
def awsPutObject (st : AwsState) (key : String) (data : List Nat) : AwsState :=
  { st with store := storeInsert st.store key data }

/-- Modelled from the spec: the MinUploadSize constant is not under src/; the
source comment fixes it as the 5MiB multipart minimum part size. -/
def MinUploadSize : Int := 5 * 1024 * 1024

/-- Client.downloadAndAppend from objaws: download the object, concatenate
the new data in memory and re-upload the result. -/
def awsDownloadAndAppend (st : AwsState) (attrs : ObjectAttrs) (data : List Nat) :
    Except (OErr × AwsState) AwsState :=
  match storeLookup st.store attrs.Key with
  | none => .error (.wrapped "failed to get object" .notFound, st)
  | some body => .ok (awsPutObject st attrs.Key (body ++ data))

/-- Client.CreateMultipartUpload from objaws: the server opens a fresh
session and returns its upload id (freshness supplied by ids/ctr). -/
def awsCreateMultipartUpload (ids : Nat → String) (ctr : Nat) (st : AwsState)
    (key : String) : String × AwsState :=
  (ids ctr, { st with sessions := (ids ctr, []) :: st.sessions })

/-- Client.UploadPart from objaws: upload the body as the numbered part of
the session; the server returns an entity tag (the source leaves Size
unset). -/
def awsUploadPart (st : AwsState) (id key : String) (number : Int)
    (body : List Nat) : Except OErr ObjPart × AwsState :=
  match awsSession st.sessions id with
  | none => (.error .notFound, st)
  | some _ =>
    (.ok { ID := "etag", Number := number, Size := 0 },
      { st with sessions := awsSessionAdd st.sessions id ⟨number, body⟩ })

/-- The inclusive byte slice bytes=Start-End of a content, as the provider
applies a copy-source range. -/
def rangeSlice (content : List Nat) (r : ByteRange) : List Nat :=
  (content.drop r.Start.toNat).take (r.End - r.Start + 1).toNat

/-- Client.UploadPartCopy from objaws: validate the range in "required" mode,
then have the server copy that range of the source object into the numbered
part of the session (no data moves through the client). -/
def awsUploadPartCopy (st : AwsState) (id dst src : String) (number : Int)
    (br : Option ByteRange) : Except OErr ObjPart × AwsState :=
  match byteRangeValid true br with
  | some e => (.error e, st)
  | none =>
    match br with
    | none => (.error .invalidByteRange, st)
    | some r =>
      match storeLookup st.store src with
      | none => (.error .notFound, st)
      | some content =>
        match awsSession st.sessions id with
        | none => (.error .notFound, st)
        | some _ =>
          (.ok { ID := "etag", Number := number, Size := 0 },
            { st with sessions := awsSessionAdd st.sessions id ⟨number, rangeSlice content r⟩ })

/-- Find the most recently uploaded session part with the given number (a
re-upload of a number replaces the earlier one). -/
def sessionFind (ps : List SessionPart) (number : Int) : Option (List Nat) :=
  (ps.reverse.find? (fun p => p.num == number)).map (·.content)

/-- Client.CompleteMultipartUpload from objaws: the server assembles the
session's parts in the caller-given order into the final object and discards
the session. -/
def awsCompleteMultipartUpload (st : AwsState) (id key : String)
    (parts : List ObjPart) : Except OErr AwsState :=
  match awsSession st.sessions id with
  | none => .error .notFound
  | some ps =>
    match parts.mapM (fun p => sessionFind ps p.Number) with
    | none => .error (.provider "InvalidPart")
    | some cs =>
      .ok { store := storeInsert st.store key cs.flatten,
            sessions := awsSessionDrop st.sessions id }

/-- Client.AbortMultipartUpload from objaws: the server discards the session
and its parts. -/
def awsAbortMultipartUpload (st : AwsState) (id key : String) : AwsState :=
  { st with sessions := awsSessionDrop st.sessions id }

/-- Client.copyAndAppend from objaws: server-side copy the whole source
object as part 1, upload the new data as part 2, then complete. -/
def awsCopyAndAppend (st : AwsState) (id : String) (attrs : ObjectAttrs)
    (data : List Nat) : Except (OErr × AwsState) AwsState :=
  match awsUploadPartCopy st id attrs.Key attrs.Key 1
      (some { Start := 0, End := attrs.Size - 1 }) with
  | (.error e, st1) => .error (.wrapped "failed to copy source object" e, st1)
  | (.ok copied, st1) =>
    match awsUploadPart st1 id attrs.Key 2 data with
    | (.error e, st2) => .error (.wrapped "failed to upload part" e, st2)
    | (.ok appended, st2) =>
      match awsCompleteMultipartUpload st2 id attrs.Key [copied, appended] with
      | .error e => .error (.wrapped "failed to complete multipart upload" e, st2)
      | .ok st3 => .ok st3

/-- Client.createMPUThenCopyAndAppend from objaws: open a session, run the
copy-and-append, and on failure abort the session before returning the
primary error (abort failures are logged, not escalated). -/
def awsCreateMPUThenCopyAndAppend (ids : Nat → String) (ctr : Nat) (st : AwsState)
    (attrs : ObjectAttrs) (data : List Nat) : Except (OErr × AwsState) AwsState :=
  let opened := awsCreateMultipartUpload ids ctr st attrs.Key
  match awsCopyAndAppend opened.2 opened.1 attrs data with
  | .ok st2 => .ok st2
  | .error (e, st2) => .error (e, awsAbortMultipartUpload st2 opened.1 attrs.Key)

/-- Client.AppendToObject from objaws: create the object when it is absent;
otherwise append by download-and-re-upload below the multipart threshold and
by copy-and-append at or above it. -/
def awsAppendToObject (ids : Nat → String) (ctr : Nat) (st : AwsState)
    (key : String) (data : List Nat) : Except (OErr × AwsState) AwsState :=
  match awsGetObjectAttrs st key with
  | .error e =>
    if e.isNotFound then .ok (awsPutObject st key data)
    else .error (.wrapped "failed to get object attributes" e, st)
  | .ok attrs =>
    if attrs.Size < MinUploadSize then awsDownloadAndAppend st attrs data
    else awsCreateMPUThenCopyAndAppend ids ctr st attrs data

/-- Modelled from the spec: the PageSize constant is not under src/; the
source comment fixes a batch as at most 1000 keys, the provider's maximum
objects per delete request. -/
def PageSize : Nat := 1000

/-- The request sent for one batch delete: the quiet flag (suppress per-key
success acknowledgements) and the keys of the batch. -/
structure DeleteObjectsInput where
  quiet : Bool
  keys : List String
deriving DecidableEq

/-- One per-key failure item of a batch-delete response; keyNotFound is the
verdict of isKeyNotFound on its error code (modelled from the spec: the code
comparison helper is not under src/). -/
structure KeyFailure where
  key : String
  keyNotFound : Bool
deriving DecidableEq

/-- The batch-delete backend: maps one request to either a whole-batch error
or the list of per-key failures (quiet mode returns only failures). -/
abbrev DeleteBackend := DeleteObjectsInput → Except OErr (List KeyFailure)

/-- Client.deleteObjects from objaws: send one page of keys in quiet mode and
scan the returned per-key failures, tolerating key-not-found as success and
surfacing any other per-key failure as the overall error. -/
def awsDeleteBatch (svc : DeleteBackend) (ks : List String) : Except OErr Unit :=
  match svc { quiet := true, keys := ks } with
  | .error e => .error e
  | .ok fails =>
    match fails.find? (fun f => !f.keyNotFound) with
    | some f => .error (.wrapped f.key (.provider "delete failed"))
    | none => .ok ()

/-- Client.DeleteObjects from objaws: page the key list into batches of at
most PageSize and send each batch, stopping at the first failing batch.  The
second component is the trace of requests issued. -/
def awsDeleteObjects (svc : DeleteBackend) (keys : List String) :
    Except OErr Unit × List DeleteObjectsInput :=
  if h : keys.isEmpty then (.ok (), [])
  else
    match awsDeleteBatch svc (keys.take PageSize) with
    | .error e => (.error e, [{ quiet := true, keys := keys.take PageSize }])
    | .ok () =>
      let rest := awsDeleteObjects svc (keys.drop PageSize)
      (rest.1, { quiet := true, keys := keys.take PageSize } :: rest.2)
termination_by keys.length
decreasing_by
  simp only [List.isEmpty_iff] at h
  simp only [List.length_drop, PageSize]
  cases keys with
  | nil => exact absurd rfl h
  | cons a l => simp only [List.length_cons]; omega

/-- The batches DeleteObjects sends: the key list cut into chunks of at most
PageSize, in order. -/
def pageChunks (keys : List String) : List (List String) :=
  if h : keys.isEmpty then []
  else keys.take PageSize :: pageChunks (keys.drop PageSize)
termination_by keys.length
decreasing_by
  simp only [List.isEmpty_iff] at h
  simp only [List.length_drop, PageSize]
  cases keys with
  | nil => exact absurd rfl h
  | cons a l => simp only [List.length_cons]; omega

/-- A backend over a set of present keys which deletes present keys silently
and reports a key-not-found per-key failure for each absent key. -/
def storeBatchSvc (present : List String) : DeleteBackend :=
  fun inp => .ok (inp.keys.filterMap
    (fun k => if k ∈ present then none else some { key := k, keyNotFound := true }))

/-- Two's-complement truncation of an integer to a signed 64-bit value, the
semantics of Go arithmetic on time.Duration (int64). -/
def wrap64 (x : Int) : Int := (x + 2 ^ 63) % 2 ^ 64 - 2 ^ 63

/-- Whether an integer is representable as a signed 64-bit value. -/
def inInt64 (x : Int) : Prop := -(2 ^ 63) ≤ x ∧ x < 2 ^ 63

theorem wrap64_range (x : Int) : -(2 ^ 63) ≤ wrap64 x ∧ wrap64 x < 2 ^ 63 := by
  unfold wrap64
  have h1 := Int.emod_nonneg (x + 2 ^ 63) (b := 2 ^ 64) (by norm_num)
  have h2 := Int.emod_lt_of_pos (x + 2 ^ 63) (b := 2 ^ 64) (by norm_num)
  constructor <;> omega

theorem wrap64_dvd (x : Int) : (2 ^ 64 : Int) ∣ (x - wrap64 x) := by
  unfold wrap64
  have h := Int.ediv_add_emod (x + 2 ^ 63) (2 ^ 64)
  exact ⟨(x + 2 ^ 63) / 2 ^ 64, by omega⟩

theorem wrap64_eq_self (x : Int) (h : inInt64 x) : wrap64 x = x := by
  unfold wrap64
  rw [Int.emod_eq_of_lt (by unfold inInt64 at h; omega) (by unfold inInt64 at h; omega)]
  omega

theorem tmod_gt_neg (a b : Int) (hb : 0 < b) : -b < a.tmod b := by
  rcases le_or_lt 0 a with h | h
  · have := Int.tmod_nonneg b h
    omega
  · have h2 : (-a).tmod b < b := Int.tmod_lt_of_pos (-a) hb
    have h5 : (-a).tmod b = -(a.tmod b) := by
      rw [Int.tmod_def, Int.tmod_def, Int.neg_tdiv]; ring
    omega

/-- When a product of 64-bit values overflows, truncated division of the
wrapped product by the (positive, representable) multiplier cannot give the
multiplicand back: the check n != duration/MinDelay detects the overflow. -/
theorem overflow_detected (n m : Int) (hm : 0 < m) (hm2 : m < 2 ^ 63)
    (hov : ¬ inInt64 (n * m)) : (wrap64 (n * m)).tdiv m ≠ n := by
  intro heq
  set d := wrap64 (n * m) with hd
  have h1 : m * (d.tdiv m) + d.tmod m = d := Int.tdiv_add_tmod d m
  rw [heq] at h1
  have h2 : d - n * m = d.tmod m := by linarith [h1]
  have h3 : d.tmod m < m := Int.tmod_lt_of_pos d hm
  have h4 : -m < d.tmod m := tmod_gt_neg d m hm
  have h5 : (2 ^ 64 : Int) ∣ (n * m - d) := wrap64_dvd (n * m)
  have h6 : n * m - d = 0 := by
    refine Int.eq_zero_of_abs_lt_dvd h5 ?_
    rw [abs_lt]
    constructor <;> omega
  have h8 := wrap64_range (n * m)
  exact hov ⟨by omega, by omega⟩

/-- The backoff algorithm selector of the retry package. -/
inductive Algorithm where
  | linear : Algorithm
  | exponential : Algorithm
  | fibonacci : Algorithm
deriving DecidableEq

/-- The retryer configuration fields read by Retryer.duration. -/
structure RetryerOptions where
  algorithm : Algorithm
  minDelay : Int
  maxDelay : Int

/-- The step count n computed by the switch in Retryer.duration: the attempt
number, 1 shifted left by the attempt (a Go shift past 63 bits wraps through
the 64-bit pattern, hence wrap64 of the power), or the rounded Binet
approximation of the Fibonacci number.  The Fibonacci value is computed with
float64 arithmetic in the source, so it is supplied here as an arbitrary
64-bit value fib attempt: every theorem below holds for all of them. -/
def stepCount (fib : Nat → Int) : Algorithm → Nat → Int
  | .linear, attempt => (attempt : Int)
  | .exponential, attempt => wrap64 (2 ^ attempt)
  | .fibonacci, attempt => wrap64 (fib attempt)

/-- Retryer.duration from the retry package: compute the step count, multiply
by MinDelay in 64-bit arithmetic, return MaxDelay outright when the
multiplication is detected to have overflowed, and otherwise clamp the
product into [MinDelay, MaxDelay]. -/
def duration (fib : Nat → Int) (o : RetryerOptions) (attempt : Nat) : Int :=
  if stepCount fib o.algorithm attempt ≠
      (wrap64 (stepCount fib o.algorithm attempt * o.minDelay)).tdiv o.minDelay then
    o.maxDelay
  else
    min o.maxDelay (max o.minDelay (wrap64 (stepCount fib o.algorithm attempt * o.minDelay)))

/-- C8: for every retry attempt number, every backoff algorithm (linear,
exponential, Fibonacci - its float-computed step supplied as an arbitrary
64-bit value), and every configuration with 0 < MinDelay <= MaxDelay (64-bit
representable), the computed sleep duration lies within [MinDelay, MaxDelay],
and when the multiplication of the step count by MinDelay overflows, exactly
MaxDelay is returned. -/
theorem retryer_duration_bounds (fib : Nat → Int) (o : RetryerOptions) (attempt : Nat)
    (h1 : 0 < o.minDelay) (h2 : o.minDelay ≤ o.maxDelay) (h3 : o.minDelay < 2 ^ 63) :
    (o.minDelay ≤ duration fib o attempt ∧ duration fib o attempt ≤ o.maxDelay) ∧
    (¬ inInt64 (stepCount fib o.algorithm attempt * o.minDelay) →
      duration fib o attempt = o.maxDelay) := by
  unfold duration
  by_cases hc : stepCount fib o.algorithm attempt =
      (wrap64 (stepCount fib o.algorithm attempt * o.minDelay)).tdiv o.minDelay
  · rw [if_neg (not_not_intro hc)]
    constructor
    · constructor
      · exact le_min h2 (le_max_left _ _)
      · exact min_le_left _ _
    · intro hov
      exact absurd hc.symm (overflow_detected _ _ h1 h3 hov)
  · rw [if_pos hc]
    exact ⟨⟨h2, le_refl _⟩, fun _ => rfl⟩

/-- Witness for C8 at a concrete configuration. -/
theorem retryer_duration_bounds_witness :
    ((1 : Int) ≤ duration (fun _ => 1) ⟨.linear, 1, 2⟩ 1 ∧
      duration (fun _ => 1) ⟨.linear, 1, 2⟩ 1 ≤ 2) ∧
    (¬ inInt64 (stepCount (fun _ => 1) Algorithm.linear 1 * 1) →
      duration (fun _ => 1) ⟨.linear, 1, 2⟩ 1 = 2) :=
  retryer_duration_bounds (fun _ => 1) ⟨.linear, 1, 2⟩ 1 (by decide) (by decide)
    (by norm_num)

/-- C6: on either provider, calling IterateObjects with non-empty include and
exclude pattern sets returns the mutual-exclusion validation error and issues
zero listing calls. -/
theorem iterate_objects_nonempty_filters_guard :
    (∀ (listing : List GRemote) (l1 l2 : List (String → Bool))
        (fn : ObjectAttrs → Option OErr), l1 ≠ [] → l2 ≠ [] →
      gcpIterateObjects listing (some l1) (some l2) fn =
        (.error .includeExcludeMutuallyExclusive, 0)) ∧
    (∀ (pages : List (List S3Object)) (l1 l2 : List (String → Bool))
        (fn : ObjectAttrs → Option OErr), l1 ≠ [] → l2 ≠ [] →
      awsIterateObjects pages (some l1) (some l2) fn =
        (.error .includeExcludeMutuallyExclusive, 0)) := by
  constructor
  · intro listing l1 l2 fn _ _
    rfl
  · intro pages l1 l2 fn _ _
    rfl

/-- Witness for C6 with singleton pattern sets. -/
theorem iterate_objects_nonempty_filters_guard_witness :
    gcpIterateObjects [] (some [fun _ => true]) (some [fun _ => true]) (fun _ => none) =
        (.error .includeExcludeMutuallyExclusive, 0) ∧
    awsIterateObjects [] (some [fun _ => true]) (some [fun _ => true]) (fun _ => none) =
        (.error .includeExcludeMutuallyExclusive, 0) :=
  ⟨iterate_objects_nonempty_filters_guard.1 [] [fun _ => true] [fun _ => true]
      (fun _ => none) (List.cons_ne_nil _ _) (List.cons_ne_nil _ _),
    iterate_objects_nonempty_filters_guard.2 [] [fun _ => true] [fun _ => true]
      (fun _ => none) (List.cons_ne_nil _ _) (List.cons_ne_nil _ _)⟩

/-- C10: on either provider the mutual-exclusion guard fires whenever both
pattern slices are present (non-nil), even when one or both hold zero
patterns: presence, not non-emptiness, is what is checked. -/
theorem iterate_objects_both_present_guard :
    (∀ (listing : List GRemote) (l1 l2 : List (String → Bool))
        (fn : ObjectAttrs → Option OErr),
      gcpIterateObjects listing (some l1) (some l2) fn =
        (.error .includeExcludeMutuallyExclusive, 0)) ∧
    (∀ (pages : List (List S3Object)) (l1 l2 : List (String → Bool))
        (fn : ObjectAttrs → Option OErr),
      awsIterateObjects pages (some l1) (some l2) fn =
        (.error .includeExcludeMutuallyExclusive, 0)) := by
  exact ⟨fun _ _ _ _ => rfl, fun _ _ _ _ => rfl⟩

/-- C9: when GetObjectAttrs fails with an error that is neither nil nor
not-found, the attrs pointer is nil and the create-on-append guard of the GCP
AppendToObject dereferences it: the call panics instead of returning the
wrapped error.  This evaluates the embedded code at such a failing input. -/
theorem gcp_append_attrs_error_panics :
    gcpAppendToObjectR (fun n => Nat.repr n) [("k", [1])] "k" [2] none
      (some (.provider "connection reset")) = .panicked := rfl

/-- C2: on either provider, AppendToObject on an absent key (and, on GCP,
also on a zero-sized object, since the GCP guard treats size 0 as absent)
leaves the backend in exactly the state PutObject would produce. -/
theorem append_absent_equals_put :
    (∀ (ids : Nat → String) (s : Store) (key : String) (data : List Nat),
      (storeLookup s key = none ∨ storeLookup s key = some []) →
      gcpAppendToObject ids s key data = .ok (gcpPutObject s key data)) ∧
    (∀ (ids : Nat → String) (ctr : Nat) (st : AwsState) (key : String) (data : List Nat),
      storeLookup st.store key = none →
      awsAppendToObject ids ctr st key data = .ok (awsPutObject st key data)) := by
  constructor
  · intro ids s key data h
    rcases h with h | h <;>
      simp [gcpAppendToObject, gcpGetObjectAttrs, gcpAppendToObjectR, h, OErr.isNotFound]
  · intro ids ctr st key data h
    simp [awsAppendToObject, awsGetObjectAttrs, h, OErr.isNotFound]

/-- Witness for C2 on concrete stores without the target key. -/
theorem append_absent_equals_put_witness :
    gcpAppendToObject (fun n => Nat.repr n) [("a", [1])] "k" [2] =
        .ok (gcpPutObject [("a", [1])] "k" [2]) ∧
    awsAppendToObject (fun n => Nat.repr n) 0 ⟨[("a", [1])], []⟩ "k" [2] =
        .ok (awsPutObject ⟨[("a", [1])], []⟩ "k" [2]) :=
  ⟨append_absent_equals_put.1 (fun n => Nat.repr n) [("a", [1])] "k" [2]
      (Or.inl (by decide)),
    append_absent_equals_put.2 (fun n => Nat.repr n) 0 ⟨[("a", [1])], []⟩ "k" [2]
      (by decide)⟩

/-- Counterexample to C4 as stated: a malformed partial range (Start 2, End
1, so Start is not 0) is rejected by the byte-range validation that runs
first, producing the invalid-range validation error rather than the claimed
unsupported-operation error. -/
theorem gcp_upload_part_copy_invalid_range_cex :
    gcpUploadPartCopy [("s", [1, 2, 3])] "id" "d" "s" 1
        (some { Start := 2, End := 1 }) =
      (.error .invalidByteRange, [("s", [1, 2, 3])]) ∧
    (OErr.invalidByteRange ≠ OErr.unsupportedOperation) := by
  exact ⟨rfl, by decide⟩

/-- C4 (amended): for a call whose byte range passes validation and whose
source object exists, a non-nil range not covering the entire source object
yields the unsupported-operation error with no intermediate object created,
while a nil range or the exactly-covering range copies the whole object to a
fresh intermediate key under the session namespace and returns a Part whose
ID is that key. -/
theorem gcp_upload_part_copy_range_behavior (s : Store) (id dst src : String)
    (number : Int) (br : Option ByteRange) (content : List Nat)
    (hsrc : storeLookup s src = some content)
    (hval : byteRangeValid false br = none) :
    (∀ r, br = some r → ¬(r.Start = 0 ∧ r.End = (content.length : Int) - 1) →
      gcpUploadPartCopy s id dst src number br = (.error .unsupportedOperation, s)) ∧
    ((br = none ∨ br = some { Start := 0, End := (content.length : Int) - 1 }) →
      gcpUploadPartCopy s id dst src number br =
        (.ok { ID := partKey id dst, Number := 0, Size := (content.length : Int) },
          storeInsert s (partKey id dst) content)) := by
  constructor
  · intro r hr hnc
    subst hr
    simp [gcpUploadPartCopy, hval, hsrc, hnc]
  · intro h
    rcases h with h | h <;> subst h <;>
      simp [gcpUploadPartCopy, hval, hsrc]

/-- Witness for C4: a two-byte source object, one rejected partial range and
one accepted nil range. -/
theorem gcp_upload_part_copy_range_behavior_witness :
    gcpUploadPartCopy [("s", [9, 9])] "i" "d" "s" 1 (some { Start := 0, End := 5 }) =
        (.error .unsupportedOperation, [("s", [9, 9])]) ∧
    gcpUploadPartCopy [("s", [9, 9])] "i" "d" "s" 1 none =
        (.ok { ID := partKey "i" "d", Number := 0, Size := 2 },
          storeInsert [("s", [9, 9])] (partKey "i" "d") [9, 9]) :=
  ⟨(gcp_upload_part_copy_range_behavior [("s", [9, 9])] "i" "d" "s" 1
      (some { Start := 0, End := 5 }) [9, 9] (by decide) (by decide)).1
      { Start := 0, End := 5 } rfl (by decide),
    (gcp_upload_part_copy_range_behavior [("s", [9, 9])] "i" "d" "s" 1
      none [9, 9] (by decide) (by decide)).2 (Or.inl rfl)⟩

theorem gcpCompleteFuel_adequate (ids : Nat → String) (key : String) :
    ∀ (fuel : Nat) (parts : List String) (ctr : Nat) (s : Store),
      parts.length < fuel →
      gcpCompleteFuel ids fuel ctr s key parts = some (gcpComplete ids ctr s key parts) := by
  intro fuel
  induction fuel with
  | zero =>
    intro parts ctr s h
    exact absurd h (by omega)
  | succ fuel ih =>
    intro parts ctr s h
    rw [gcpComplete]
    by_cases hle : parts.length ≤ MaxComposable
    · simp only [gcpCompleteFuel, if_pos hle, dif_pos hle]
    · simp only [gcpCompleteFuel, if_neg hle, dif_neg hle]
      have hlen : (partKey (ids ctr) key :: parts.drop MaxComposable).length < fuel := by
        simp only [List.length_cons, List.length_drop]
        simp only [MaxComposable] at hle h ⊢
        omega
      cases hcomp : gcpCompose s (partKey (ids ctr) key) (parts.take MaxComposable) with
      | error es =>
        obtain ⟨e, s1⟩ := es
        rfl
      | ok s1 =>
        dsimp only
        rw [ih (partKey (ids ctr) key :: parts.drop MaxComposable) (ctr + 1) s1 hlen]
        cases hrec : gcpComplete ids (ctr + 1) s1 key
            (partKey (ids ctr) key :: parts.drop MaxComposable) with
        | error es =>
          obtain ⟨e, s2⟩ := es
          rfl
        | ok s2 => rfl

/-- C7: the recursive completion terminates on every finite part list.  When
more than MaxComposable parts remain the recursive call receives exactly
length - MaxComposable + 1 identifiers, strictly fewer than before, and the
whole recursion finishes within parts.length + 1 nested calls: running the
fuel-indexed variant of Client.complete with that much fuel never exhausts
it and computes the same result. -/
theorem gcp_complete_recursion_bounded (ids : Nat → String) (ctr : Nat) (s : Store)
    (key : String) (parts : List String) (h : MaxComposable < parts.length) :
    gcpCompleteFuel ids (parts.length + 1) ctr s key parts =
      some (gcpComplete ids ctr s key parts) ∧
    parts.length - MaxComposable + 1 < parts.length := by
  refine ⟨gcpCompleteFuel_adequate ids key (parts.length + 1) parts ctr s (by omega), ?_⟩
  simp only [MaxComposable] at h ⊢
  omega

/-- Witness for C7 at a list of 33 part identifiers. -/
theorem gcp_complete_recursion_bounded_witness :
    gcpCompleteFuel (fun n => Nat.repr n) ((List.replicate 33 "p").length + 1) 0 [] "k"
        (List.replicate 33 "p") =
      some (gcpComplete (fun n => Nat.repr n) 0 [] "k" (List.replicate 33 "p")) ∧
    (List.replicate 33 "p").length - MaxComposable + 1 < (List.replicate 33 "p").length :=
  gcp_complete_recursion_bounded (fun n => Nat.repr n) 0 [] "k" (List.replicate 33 "p")
    (by decide)

/-- A batch request succeeds in the tolerated sense: the backend returns a
response (no whole-batch failure) and every per-key failure in it reports
key-not-found. -/
def batchTolerated (svc : DeleteBackend) (b : List String) : Prop :=
  ∃ fs, svc { quiet := true, keys := b } = .ok fs ∧ ∀ f ∈ fs, f.keyNotFound = true

theorem awsDeleteBatch_ok_iff (svc : DeleteBackend) (b : List String) :
    awsDeleteBatch svc b = .ok () ↔ batchTolerated svc b := by
  unfold awsDeleteBatch batchTolerated
  cases hsvc : svc { quiet := true, keys := b } with
  | error e =>
    simp only
    constructor
    · intro hcon
      exact absurd hcon (by simp)
    · rintro ⟨fs, hfs, _⟩
      exact absurd hfs (by simp)
  | ok fails =>
    simp only
    cases hf : fails.find? (fun f => !f.keyNotFound) with
    | none =>
      simp only
      constructor
      · intro _
        refine ⟨fails, rfl, fun f hfm => ?_⟩
        have := List.find?_eq_none.mp hf f hfm
        simpa using this
      · intro _
        trivial
    | some f =>
      simp only
      constructor
      · intro hcon
        exact absurd hcon (by simp)
      · rintro ⟨fs, hfs, hall⟩
        have hfs' : fs = fails := by
          injection hfs with h
          exact h.symm
        subst hfs'
        have h1 : f ∈ fs := List.mem_of_find?_eq_some hf
        have h2 := List.find?_some hf
        have h3 := hall f h1
        simp [h3] at h2

theorem pageChunks_nil : pageChunks [] = [] := by
  rw [pageChunks]
  simp

theorem pageChunks_cons (keys : List String) (h : keys ≠ []) :
    pageChunks keys = keys.take PageSize :: pageChunks (keys.drop PageSize) := by
  rw [pageChunks]
  simp [h]

theorem awsDeleteObjects_nil (svc : DeleteBackend) :
    awsDeleteObjects svc [] = (.ok (), []) := by
  rw [awsDeleteObjects]
  simp

theorem awsDeleteObjects_cons (svc : DeleteBackend) (keys : List String) (h : keys ≠ []) :
    awsDeleteObjects svc keys =
      match awsDeleteBatch svc (keys.take PageSize) with
      | .error e => (.error e, [{ quiet := true, keys := keys.take PageSize }])
      | .ok () =>
        ((awsDeleteObjects svc (keys.drop PageSize)).1,
          { quiet := true, keys := keys.take PageSize } ::
            (awsDeleteObjects svc (keys.drop PageSize)).2) := by
  rw [awsDeleteObjects]
  simp only [List.isEmpty_iff, h, dite_false]

theorem awsDeleteObjects_spec_aux (svc : DeleteBackend) :
    ∀ (N : Nat) (keys : List String), keys.length ≤ N →
      (∀ c ∈ (awsDeleteObjects svc keys).2, c.quiet = true ∧ c.keys.length ≤ PageSize) ∧
      ((awsDeleteObjects svc keys).1 = .ok () ↔
        ∀ b ∈ pageChunks keys, batchTolerated svc b) ∧
      ((awsDeleteObjects svc keys).1 = .ok () →
        (awsDeleteObjects svc keys).2 =
          (pageChunks keys).map (fun b => { quiet := true, keys := b })) ∧
      (pageChunks keys).flatten = keys := by
  intro N
  induction N with
  | zero =>
    intro keys hlen
    have hk : keys = [] := List.eq_nil_of_length_eq_zero (by omega)
    subst hk
    rw [awsDeleteObjects_nil, pageChunks_nil]
    simp
  | succ N ih =>
    intro keys hlen
    by_cases hk : keys = []
    · subst hk
      rw [awsDeleteObjects_nil, pageChunks_nil]
      simp
    · have hdrop : (keys.drop PageSize).length ≤ N := by
        have : keys.length ≠ 0 := fun hc => hk (List.eq_nil_of_length_eq_zero hc)
        simp only [List.length_drop, PageSize]
        omega
      obtain ⟨iha, ihb, ihc, ihd⟩ := ih (keys.drop PageSize) hdrop
      rw [awsDeleteObjects_cons svc keys hk, pageChunks_cons keys hk]
      have hflat : (keys.take PageSize :: pageChunks (keys.drop PageSize)).flatten = keys := by
        simp only [List.flatten_cons, ihd, List.take_append_drop]
      cases hb : awsDeleteBatch svc (keys.take PageSize) with
      | error e =>
        refine ⟨?_, ?_, ?_, hflat⟩
        · intro c hc
          simp only [List.mem_singleton] at hc
          subst hc
          exact ⟨rfl, by simp⟩
        · constructor
          · intro hcon
            exact absurd hcon (by simp)
          · intro hall
            have h1 : batchTolerated svc (keys.take PageSize) := hall _ (by simp)
            have h2 := (awsDeleteBatch_ok_iff svc (keys.take PageSize)).mpr h1
            rw [hb] at h2
            exact absurd h2 (by simp)
        · intro hcon
          exact absurd hcon (by simp)
      | ok u =>
        cases u
        have hbt : batchTolerated svc (keys.take PageSize) :=
          (awsDeleteBatch_ok_iff svc (keys.take PageSize)).mp hb
        refine ⟨?_, ?_, ?_, hflat⟩
        · intro c hc
          simp only [List.mem_cons] at hc
          rcases hc with hc | hc
          · subst hc
            exact ⟨rfl, by simp⟩
          · exact iha c hc
        · constructor
          · intro hok b hbm
            simp only [List.mem_cons] at hbm
            rcases hbm with hbm | hbm
            · subst hbm
              exact hbt
            · exact (ihb.mp hok) b hbm
          · intro hall
            exact ihb.mpr (fun b hbm => hall b (by simp [hbm]))
        · intro hok
          simp only [List.map_cons]
          rw [ihc hok]

/-- C5: DeleteObjects splits the key list into quiet-mode batches of at most
the provider page size whose concatenation is the key list, tolerates per-key
key-not-found failures, returns success exactly when every batch draws a
response whose per-key failures are all key-not-found, and in particular
succeeds against a backend where any mix of the keys is already absent. -/
theorem aws_delete_objects_batching_spec (svc : DeleteBackend) (keys : List String) :
    (∀ c ∈ (awsDeleteObjects svc keys).2, c.quiet = true ∧ c.keys.length ≤ PageSize) ∧
    ((awsDeleteObjects svc keys).1 = .ok () ↔
      ∀ b ∈ pageChunks keys, batchTolerated svc b) ∧
    ((awsDeleteObjects svc keys).1 = .ok () →
      (awsDeleteObjects svc keys).2 =
        (pageChunks keys).map (fun b => { quiet := true, keys := b })) ∧
    (pageChunks keys).flatten = keys ∧
    (∀ present : List String, (awsDeleteObjects (storeBatchSvc present) keys).1 = .ok ()) := by
  obtain ⟨ha, hb, hc, hd⟩ := awsDeleteObjects_spec_aux svc keys.length keys (le_refl _)
  refine ⟨ha, hb, hc, hd, ?_⟩
  intro present
  obtain ⟨_, hb', _, _⟩ :=
    awsDeleteObjects_spec_aux (storeBatchSvc present) keys.length keys (le_refl _)
  refine hb'.mpr ?_
  intro b hbm
  refine ⟨(storeBatchSvc present { quiet := true, keys := b }).toOption.getD [], ?_, ?_⟩
  · rfl
  · intro f hf
    simp only [storeBatchSvc, Except.toOption, Option.getD] at hf
    rw [List.mem_filterMap] at hf
    obtain ⟨k, _, hk⟩ := hf
    by_cases hkp : k ∈ present
    · simp [hkp] at hk
    · simp only [hkp, if_false] at hk
      injection hk with hk
      rw [← hk]

/-- Witness for C5 at a concrete backend and key list. -/
theorem aws_delete_objects_batching_spec_witness :
    ((awsDeleteObjects (storeBatchSvc ["a"]) ["a", "b"]).1 = .ok ()) ∧
    ((awsDeleteObjects (storeBatchSvc ["a"]) ["a", "b"]).2 =
      (pageChunks ["a", "b"]).map (fun b => { quiet := true, keys := b })) :=
  ⟨(aws_delete_objects_batching_spec (storeBatchSvc ["a"]) ["a", "b"]).2.2.2.2 ["a"],
    (aws_delete_objects_batching_spec (storeBatchSvc ["a"]) ["a", "b"]).2.2.1
      ((aws_delete_objects_batching_spec (storeBatchSvc ["a"]) ["a", "b"]).2.2.2.2 ["a"])⟩

theorem gcpComplete_small (ids : Nat → String) (ctr : Nat) (s : Store) (key : String)
    (parts : List String) (h : parts.length ≤ MaxComposable) :
    gcpComplete ids ctr s key parts = gcpCompose s key parts := by
  rw [gcpComplete]
  simp [h]

theorem gcpComplete_large (ids : Nat → String) (ctr : Nat) (s : Store) (key : String)
    (parts : List String) (h : ¬ parts.length ≤ MaxComposable) :
    gcpComplete ids ctr s key parts =
      match gcpCompose s (partKey (ids ctr) key) (parts.take MaxComposable) with
      | .error (e, s1) => .error (e, gcpCleanup s1 [partKey (ids ctr) key])
      | .ok s1 =>
        match gcpComplete ids (ctr + 1) s1 key
            (partKey (ids ctr) key :: parts.drop MaxComposable) with
        | .error (e, s2) => .error (e, gcpCleanup s2 [partKey (ids ctr) key])
        | .ok s2 => .ok (gcpCleanup s2 [partKey (ids ctr) key]) := by
  rw [gcpComplete]
  simp [h]

theorem gcpCompose_ok (s : Store) (key : String) (parts : List String)
    (cs : List (List Nat)) (hne : parts ≠ []) (hla : storeLookupAll s parts = some cs) :
    gcpCompose s key parts = .ok (storeInsert s key cs.flatten) := by
  unfold gcpCompose
  rw [hla]
  simp [hne]

theorem storeLookupAll_split (s : Store) (parts : List String) (n : Nat)
    (cs : List (List Nat)) (h : storeLookupAll s parts = some cs) :
    ∃ ca cb, storeLookupAll s (parts.take n) = some ca ∧
      storeLookupAll s (parts.drop n) = some cb ∧ cs = ca ++ cb := by
  have happ := storeLookupAll_append s (parts.take n) (parts.drop n)
  rw [List.take_append_drop, h] at happ
  cases hta : storeLookupAll s (parts.take n) with
  | none => rw [hta] at happ; exact absurd happ (by simp)
  | some ca =>
    cases htb : storeLookupAll s (parts.drop n) with
    | none => rw [hta, htb] at happ; exact absurd happ (by simp)
    | some cb =>
      rw [hta, htb] at happ
      simp only at happ
      injection happ with happ
      exact ⟨ca, cb, rfl, rfl, happ⟩

theorem eraseFirst_subset (l : List String) (k x : String)
    (h : x ∈ eraseFirst l k) : x ∈ l := by
  induction l with
  | nil => simp [eraseFirst] at h
  | cons a l ih =>
    simp only [eraseFirst] at h
    by_cases ha : a = k
    · rw [if_pos ha] at h
      exact List.mem_cons_of_mem a h
    · rw [if_neg ha] at h
      rcases List.mem_cons.mp h with h | h
      · exact List.mem_cons.mpr (Or.inl h)
      · exact List.mem_cons_of_mem a (ih h)

theorem mem_eraseFirst_of_ne (l : List String) (k x : String)
    (hx : x ∈ l) (hne : x ≠ k) : x ∈ eraseFirst l k := by
  induction l with
  | nil => simp at hx
  | cons a l ih =>
    simp only [eraseFirst]
    by_cases ha : a = k
    · rw [if_pos ha]
      rcases List.mem_cons.mp hx with h | h
      · exact absurd (h.trans ha) hne
      · exact h
    · rw [if_neg ha]
      rcases List.mem_cons.mp hx with h | h
      · exact List.mem_cons.mpr (Or.inl h)
      · exact List.mem_cons_of_mem a (ih h)

theorem not_mem_eraseFirst_self (l : List String) (k : String)
    (h : l.count k ≤ 1) : k ∉ eraseFirst l k := by
  induction l with
  | nil => simp [eraseFirst]
  | cons a l ih =>
    simp only [eraseFirst]
    by_cases ha : a = k
    · rw [if_pos ha]
      intro hcon
      have : 1 ≤ l.count k := List.one_le_count_iff.mpr hcon
      rw [List.count_cons] at h
      simp [ha] at h
      omega
    · rw [if_neg ha]
      intro hcon
      rcases List.mem_cons.mp hcon with hc | hc
      · exact ha hc.symm
      · refine ih ?_ hc
        rw [List.count_cons] at h
        by_cases hak : a = k
        · exact absurd hak ha
        · simpa [hak] using h

theorem gcp_complete_master (ids : Nat → String) (key : String) :
    ∀ (N : Nat) (parts : List String) (ctr : Nat) (s : Store) (cs : List (List Nat)),
      parts.length ≤ N →
      parts ≠ [] →
      storeLookupAll s parts = some cs →
      (∀ n, n < parts.length →
        storeLookup s (partKey (ids (ctr + n)) key) = none ∧
        partKey (ids (ctr + n)) key ∉ parts ∧
        partKey (ids (ctr + n)) key ≠ key) →
      (∀ m, m < parts.length → ∀ n, n < parts.length →
        partKey (ids (ctr + m)) key = partKey (ids (ctr + n)) key → m = n) →
      ∃ fs, gcpComplete ids ctr s key parts = .ok fs ∧
        storeLookup fs key = some cs.flatten ∧
        (∀ n, n < parts.length → storeLookup fs (partKey (ids (ctr + n)) key) = none) ∧
        (∀ q, q ≠ key → (∀ n, n < parts.length → q ≠ partKey (ids (ctr + n)) key) →
          storeLookup fs q = storeLookup s q) := by
  intro N
  induction N with
  | zero =>
    intro parts ctr s cs hlen hne _ _ _
    exact absurd (List.eq_nil_of_length_eq_zero (by omega)) hne
  | succ N ih =>
    intro parts ctr s cs hlen hne hla hfr hinj
    by_cases hle : parts.length ≤ MaxComposable
    · refine ⟨storeInsert s key cs.flatten, ?_, ?_, ?_, ?_⟩
      · rw [gcpComplete_small ids ctr s key parts hle,
          gcpCompose_ok s key parts cs hne hla]
      · rw [storeLookup_insert]
        simp
      · intro n hn
        rw [storeLookup_insert, if_neg ((hfr n hn).2.2)]
        exact (hfr n hn).1
      · intro q hq _
        rw [storeLookup_insert, if_neg hq]
    · have hlen33 : MaxComposable < parts.length := by omega
      have hM : MaxComposable = 32 := rfl
      obtain ⟨ca, cb, hca, hcb, hcs⟩ := storeLookupAll_split s parts MaxComposable cs hla
      have htake_ne : parts.take MaxComposable ≠ [] := by
        intro hcon
        have h1 : (parts.take MaxComposable).length = MaxComposable := by
          rw [List.length_take]
          omega
        rw [hcon] at h1
        simp [MaxComposable] at h1
      have hcomp : gcpCompose s (partKey (ids ctr) key) (parts.take MaxComposable) =
          .ok (storeInsert s (partKey (ids ctr) key) ca.flatten) :=
        gcpCompose_ok s (partKey (ids ctr) key) (parts.take MaxComposable) ca htake_ne hca
      have hint0 : ∀ p ∈ parts, p ≠ partKey (ids ctr) key := by
        intro p hp hcon
        have h0 := hfr 0 (by omega)
        rw [Nat.add_zero] at h0
        exact h0.2.1 (hcon ▸ hp)
      have hplen : (partKey (ids ctr) key :: parts.drop MaxComposable).length =
          parts.length - MaxComposable + 1 := by
        simp only [List.length_cons, List.length_drop]
      have hdropeq : storeLookupAll (storeInsert s (partKey (ids ctr) key) ca.flatten)
          (parts.drop MaxComposable) = some cb := by
        rw [storeLookupAll_congr s _ _ ?_]
        · exact hcb
        · intro k hk
          rw [storeLookup_insert, if_neg (hint0 k (List.mem_of_mem_drop hk))]
      have hla' : storeLookupAll (storeInsert s (partKey (ids ctr) key) ca.flatten)
          (partKey (ids ctr) key :: parts.drop MaxComposable) =
          some (ca.flatten :: cb) := by
        have hstep : storeLookupAll (storeInsert s (partKey (ids ctr) key) ca.flatten)
            (partKey (ids ctr) key :: parts.drop MaxComposable) =
            match storeLookup (storeInsert s (partKey (ids ctr) key) ca.flatten)
                (partKey (ids ctr) key),
              storeLookupAll (storeInsert s (partKey (ids ctr) key) ca.flatten)
                (parts.drop MaxComposable) with
            | some c, some cs => some (c :: cs)
            | _, _ => none := rfl
        rw [hstep, hdropeq, storeLookup_insert, if_pos rfl]
      have hidx : ∀ n : Nat, ctr + 1 + n = ctr + (1 + n) := by omega
      have hfr' : ∀ n, n < (partKey (ids ctr) key :: parts.drop MaxComposable).length →
          storeLookup (storeInsert s (partKey (ids ctr) key) ca.flatten)
            (partKey (ids (ctr + 1 + n)) key) = none ∧
          partKey (ids (ctr + 1 + n)) key ∉
            (partKey (ids ctr) key :: parts.drop MaxComposable) ∧
          partKey (ids (ctr + 1 + n)) key ≠ key := by
        intro n hn
        rw [hplen] at hn
        have h1n : 1 + n < parts.length := by omega
        have hbase := hfr (1 + n) h1n
        rw [← hidx n] at hbase
        have hne_inter : partKey (ids (ctr + 1 + n)) key ≠ partKey (ids ctr) key := by
          intro hcon
          have h0 : ctr = ctr + 0 := by omega
          rw [hidx n, h0] at hcon
          have := hinj (1 + n) h1n 0 (by omega) hcon
          omega
        refine ⟨?_, ?_, hbase.2.2⟩
        · rw [storeLookup_insert, if_neg hne_inter]
          exact hbase.1
        · intro hcon
          rcases List.mem_cons.mp hcon with hc | hc
          · exact hne_inter hc
          · exact hbase.2.1 (List.mem_of_mem_drop hc)
      have hinj' : ∀ m, m < (partKey (ids ctr) key :: parts.drop MaxComposable).length →
          ∀ n, n < (partKey (ids ctr) key :: parts.drop MaxComposable).length →
          partKey (ids (ctr + 1 + m)) key = partKey (ids (ctr + 1 + n)) key → m = n := by
        intro m hm n hn hcon
        rw [hplen] at hm hn
        rw [hidx m, hidx n] at hcon
        have := hinj (1 + m) (by omega) (1 + n) (by omega) hcon
        omega
      obtain ⟨fs', hfs'eq, hfs'key, hfs'int, hfs'frame⟩ :=
        ih (partKey (ids ctr) key :: parts.drop MaxComposable) (ctr + 1)
          (storeInsert s (partKey (ids ctr) key) ca.flatten) (ca.flatten :: cb)
          (by rw [hplen]; omega) (List.cons_ne_nil _ _) hla' hfr' hinj'
      refine ⟨storeErase fs' (partKey (ids ctr) key), ?_, ?_, ?_, ?_⟩
      · rw [gcpComplete_large ids ctr s key parts hle, hcomp]
        dsimp only
        rw [hfs'eq]
        rfl
      · rw [storeLookup_erase]
        have hkey_ne : key ≠ partKey (ids ctr) key := by
          have h0 := hfr 0 (by omega)
          rw [Nat.add_zero] at h0
          exact fun hcon => h0.2.2 hcon.symm
        rw [if_neg hkey_ne, hfs'key, hcs]
        simp [List.flatten_append]
      · intro n hn
        rcases Nat.eq_zero_or_pos n with hn0 | hnpos
        · subst hn0
          rw [Nat.add_zero, storeLookup_erase, if_pos rfl]
        · obtain ⟨m, hm⟩ : ∃ m, n = 1 + m := ⟨n - 1, by omega⟩
          subst hm
          have hne_inter : partKey (ids (ctr + (1 + m))) key ≠ partKey (ids ctr) key := by
            intro hcon
            have h0 : ctr = ctr + 0 := by omega
            rw [h0] at hcon
            have := hinj (1 + m) hn 0 (by omega) hcon
            omega
          rw [storeLookup_erase, if_neg hne_inter]
          by_cases hmlt : m < (partKey (ids ctr) key :: parts.drop MaxComposable).length
          · have := hfs'int m hmlt
            rw [hidx m] at this
            exact this
          · have hqneq : partKey (ids (ctr + (1 + m))) key ≠ key := (hfr (1 + m) hn).2.2
            have havoidj : ∀ j,
                j < (partKey (ids ctr) key :: parts.drop MaxComposable).length →
                partKey (ids (ctr + (1 + m))) key ≠ partKey (ids (ctr + 1 + j)) key := by
              intro j hj hcon
              rw [hidx j] at hcon
              have hmj := hinj (1 + m) hn (1 + j) (by rw [hplen] at hj; omega) hcon
              rw [hplen] at hmlt hj
              omega
            have hq := hfs'frame (partKey (ids (ctr + (1 + m))) key) hqneq havoidj
            rw [hq, storeLookup_insert, if_neg hne_inter]
            exact (hfr (1 + m) hn).1
      · intro q hq havoid
        have hq_inter : q ≠ partKey (ids ctr) key := by
          have h0 := havoid 0 (by omega)
          rw [Nat.add_zero] at h0
          exact h0
        rw [storeLookup_erase, if_neg hq_inter]
        rw [hfs'frame q hq ?_]
        · rw [storeLookup_insert, if_neg hq_inter]
        · intro j hj
          rw [hidx j]
          exact havoid (1 + j) (by rw [hplen] at hj; omega)

theorem gcp_cmu_master (ids : Nat → String) (key : String) (ctr : Nat) (s : Store)
    (parts : List ObjPart) (cs : List (List Nat))
    (hne : parts.map (·.ID) ≠ [])
    (hla : storeLookupAll s (parts.map (·.ID)) = some cs)
    (hcount : (parts.map (·.ID)).count key ≤ 1)
    (hfr : ∀ n, n < (parts.map (·.ID)).length →
      storeLookup s (partKey (ids (ctr + n)) key) = none ∧
      partKey (ids (ctr + n)) key ∉ parts.map (·.ID) ∧
      partKey (ids (ctr + n)) key ≠ key)
    (hinj : ∀ m, m < (parts.map (·.ID)).length → ∀ n, n < (parts.map (·.ID)).length →
      partKey (ids (ctr + m)) key = partKey (ids (ctr + n)) key → m = n) :
    ∃ fs, gcpCompleteMultipartUpload ids ctr s key parts = .ok fs ∧
      storeLookup fs key = some cs.flatten ∧
      (∀ p ∈ parts.map (·.ID), p ≠ key → storeLookup fs p = none) ∧
      (∀ n, n < (parts.map (·.ID)).length →
        storeLookup fs (partKey (ids (ctr + n)) key) = none) ∧
      (∀ q, q ≠ key → q ∉ parts.map (·.ID) →
        (∀ n, n < (parts.map (·.ID)).length → q ≠ partKey (ids (ctr + n)) key) →
        storeLookup fs q = storeLookup s q) := by
  obtain ⟨fs', heq, hkey, hint, hframe⟩ :=
    gcp_complete_master ids key (parts.map (·.ID)).length (parts.map (·.ID)) ctr s cs
      (le_refl _) hne hla hfr hinj
  refine ⟨storeEraseAll fs' (eraseFirst (parts.map (·.ID)) key), ?_, ?_, ?_, ?_, ?_⟩
  · simp only [gcpCompleteMultipartUpload]
    rw [heq]
    rfl
  · rw [storeLookup_eraseAll, if_neg (not_mem_eraseFirst_self _ key hcount)]
    exact hkey
  · intro p hp hpk
    rw [storeLookup_eraseAll, if_pos (mem_eraseFirst_of_ne _ key p hp hpk)]
  · intro n hn
    rw [storeLookup_eraseAll,
      if_neg (fun hc => (hfr n hn).2.1 (eraseFirst_subset _ key _ hc))]
    exact hint n hn
  · intro q hq hqp havoid
    rw [storeLookup_eraseAll, if_neg (fun hc => hqp (eraseFirst_subset _ key _ hc))]
    exact hframe q hq havoid

theorem gcpCMU_small (ids : Nat → String) (ctr : Nat) (s : Store) (key : String)
    (parts : List ObjPart) (h : (parts.map (·.ID)).length ≤ MaxComposable) :
    gcpCompleteMultipartUpload ids ctr s key parts =
      match gcpCompose s key (parts.map (·.ID)) with
      | .error es => .error es
      | .ok s1 => .ok (gcpCleanup s1 (eraseFirst (parts.map (·.ID)) key)) := by
  simp only [gcpCompleteMultipartUpload]
  rw [gcpComplete_small _ _ _ _ _ h]

/-- Counterexample to C1 as stated: with the destination key "k" appearing
twice among the part identifiers, CompleteMultipartUpload succeeds but the
final cleanup deletes the composed object, leaving no object at the
destination key at all. -/
theorem gcp_complete_multipart_duplicate_dest_cex :
    gcpCompleteMultipartUpload (fun n => Nat.repr n) 0 [("k", [7])] "k"
        [{ ID := "k", Number := 1, Size := 1 }, { ID := "k", Number := 2, Size := 1 }] =
      .ok [] ∧
    storeLookup [] "k" = none := by
  constructor
  · rw [gcpCMU_small (fun n => Nat.repr n) 0 [("k", [7])] "k"
      [{ ID := "k", Number := 1, Size := 1 }, { ID := "k", Number := 2, Size := 1 }]
      (by decide)]
    rfl
  · rfl

/-- C1 (amended): for every non-empty ordered list of parts in which the
destination key occurs at most once among the part identifiers (and whose
identifiers are present objects, with the generated intermediate keys fresh
and pairwise distinct), CompleteMultipartUpload succeeds and produces the
object at the destination key whose content is the concatenation of the
parts' contents in the caller-given order; afterwards every part identifier
other than the destination key and every generated intermediate is deleted,
and all other objects are untouched. -/
theorem gcp_complete_multipart_concat_and_cleanup (ids : Nat → String) (key : String)
    (ctr : Nat) (s : Store) (parts : List ObjPart) (cs : List (List Nat))
    (hne : parts.map (·.ID) ≠ [])
    (hla : storeLookupAll s (parts.map (·.ID)) = some cs)
    (hcount : (parts.map (·.ID)).count key ≤ 1)
    (hfr : ∀ n, n < (parts.map (·.ID)).length →
      storeLookup s (partKey (ids (ctr + n)) key) = none ∧
      partKey (ids (ctr + n)) key ∉ parts.map (·.ID) ∧
      partKey (ids (ctr + n)) key ≠ key)
    (hinj : ∀ m, m < (parts.map (·.ID)).length → ∀ n, n < (parts.map (·.ID)).length →
      partKey (ids (ctr + m)) key = partKey (ids (ctr + n)) key → m = n) :
    ∃ fs, gcpCompleteMultipartUpload ids ctr s key parts = .ok fs ∧
      storeLookup fs key = some cs.flatten ∧
      (∀ p ∈ parts.map (·.ID), p ≠ key → storeLookup fs p = none) ∧
      (∀ n, n < (parts.map (·.ID)).length →
        storeLookup fs (partKey (ids (ctr + n)) key) = none) ∧
      (∀ q, q ≠ key → q ∉ parts.map (·.ID) →
        (∀ n, n < (parts.map (·.ID)).length → q ≠ partKey (ids (ctr + n)) key) →
        storeLookup fs q = storeLookup s q) :=
  gcp_cmu_master ids key ctr s parts cs hne hla hcount hfr hinj

/-- Witness for C1 on a two-part upload over a concrete store. -/
theorem gcp_complete_multipart_concat_and_cleanup_witness :
    ∃ fs, gcpCompleteMultipartUpload (fun n => Nat.repr n) 0 [("a", [1]), ("b", [2])] "k"
        [{ ID := "a", Number := 1, Size := 1 }, { ID := "b", Number := 2, Size := 1 }] =
      .ok fs ∧
      storeLookup fs "k" =
        some (([[1], [2]] : List (List Nat)).flatten) ∧
      (∀ p ∈ ([{ ID := "a", Number := 1, Size := 1 },
          { ID := "b", Number := 2, Size := 1 }] : List ObjPart).map (·.ID),
        p ≠ "k" → storeLookup fs p = none) ∧
      (∀ n, n < (([{ ID := "a", Number := 1, Size := 1 },
          { ID := "b", Number := 2, Size := 1 }] : List ObjPart).map (·.ID)).length →
        storeLookup fs (partKey (Nat.repr (0 + n)) "k") = none) ∧
      (∀ q, q ≠ "k" →
        q ∉ ([{ ID := "a", Number := 1, Size := 1 },
          { ID := "b", Number := 2, Size := 1 }] : List ObjPart).map (·.ID) →
        (∀ n, n < (([{ ID := "a", Number := 1, Size := 1 },
            { ID := "b", Number := 2, Size := 1 }] : List ObjPart).map (·.ID)).length →
          q ≠ partKey (Nat.repr (0 + n)) "k") →
        storeLookup fs q = storeLookup [("a", [1]), ("b", [2])] q) :=
  gcp_complete_multipart_concat_and_cleanup (fun n => Nat.repr n) "k" 0
    [("a", [1]), ("b", [2])]
    [{ ID := "a", Number := 1, Size := 1 }, { ID := "b", Number := 2, Size := 1 }]
    [[1], [2]] (by decide) (by decide) (by decide) (by decide) (by decide)

/-- Counterexample to C3 as stated: when the destination key appears twice
among the part identifiers, only its first occurrence is spared by the
cleanup; the remaining occurrence is deleted, which removes the final object
itself even though the identifier equals the destination key. -/
theorem gcp_cleanup_deletes_duplicated_dest_cex :
    gcpCompleteMultipartUpload (fun n => Nat.repr n) 0 [("k", [1, 2])] "k"
        [{ ID := "k", Number := 1, Size := 2 }, { ID := "k", Number := 2, Size := 2 }] =
      .ok [] ∧
    storeLookup [] "k" = none := by
  constructor
  · rw [gcpCMU_small (fun n => Nat.repr n) 0 [("k", [1, 2])] "k"
      [{ ID := "k", Number := 1, Size := 2 }, { ID := "k", Number := 2, Size := 2 }]
      (by decide)]
    rfl
  · rfl

/-- C3 (amended): after a successful completion, every consumed source
identifier - both the part identifiers and the generated intermediates - is
deleted by the best-effort cleanup, whose outcome is never surfaced (the
call still returns ok); an identifier equal to the final destination key is
spared only in its first occurrence, so when the destination key appears at
most once among the part identifiers the final object is retained. -/
theorem gcp_cleanup_spares_dest_key (ids : Nat → String) (key : String)
    (ctr : Nat) (s : Store) (parts : List ObjPart) (cs : List (List Nat))
    (hne : parts.map (·.ID) ≠ [])
    (hla : storeLookupAll s (parts.map (·.ID)) = some cs)
    (hcount : (parts.map (·.ID)).count key ≤ 1)
    (hfr : ∀ n, n < (parts.map (·.ID)).length →
      storeLookup s (partKey (ids (ctr + n)) key) = none ∧
      partKey (ids (ctr + n)) key ∉ parts.map (·.ID) ∧
      partKey (ids (ctr + n)) key ≠ key)
    (hinj : ∀ m, m < (parts.map (·.ID)).length → ∀ n, n < (parts.map (·.ID)).length →
      partKey (ids (ctr + m)) key = partKey (ids (ctr + n)) key → m = n) :
    ∃ fs, gcpCompleteMultipartUpload ids ctr s key parts = .ok fs ∧
      (∀ p ∈ parts.map (·.ID), p ≠ key → storeLookup fs p = none) ∧
      (∀ n, n < (parts.map (·.ID)).length →
        storeLookup fs (partKey (ids (ctr + n)) key) = none) ∧
      (key ∈ parts.map (·.ID) → storeLookup fs key = some cs.flatten) := by
  obtain ⟨fs, heq, hkey, hparts, hint, _⟩ :=
    gcp_cmu_master ids key ctr s parts cs hne hla hcount hfr hinj
  exact ⟨fs, heq, hparts, hint, fun _ => hkey⟩

/-- Witness for C3 with the destination key itself as part 1 (the
self-referential append pattern). -/
theorem gcp_cleanup_spares_dest_key_witness :
    ∃ fs, gcpCompleteMultipartUpload (fun n => Nat.repr n) 0 [("k", [5]), ("b", [6])] "k"
        [{ ID := "k", Number := 1, Size := 1 }, { ID := "b", Number := 2, Size := 1 }] =
      .ok fs ∧
      (∀ p ∈ ([{ ID := "k", Number := 1, Size := 1 },
          { ID := "b", Number := 2, Size := 1 }] : List ObjPart).map (·.ID),
        p ≠ "k" → storeLookup fs p = none) ∧
      (∀ n, n < (([{ ID := "k", Number := 1, Size := 1 },
          { ID := "b", Number := 2, Size := 1 }] : List ObjPart).map (·.ID)).length →
        storeLookup fs (partKey (Nat.repr (0 + n)) "k") = none) ∧
      ("k" ∈ ([{ ID := "k", Number := 1, Size := 1 },
          { ID := "b", Number := 2, Size := 1 }] : List ObjPart).map (·.ID) →
        storeLookup fs "k" = some (([[5], [6]] : List (List Nat)).flatten)) :=
  gcp_cleanup_spares_dest_key (fun n => Nat.repr n) "k" 0 [("k", [5]), ("b", [6])]
    [{ ID := "k", Number := 1, Size := 1 }, { ID := "b", Number := 2, Size := 1 }]
    [[5], [6]] (by decide) (by decide) (by decide) (by decide) (by decide)
